import Mathlib

/-!
Verification development for the image-resizer pipeline (`resize_images.py`).

The source program watches a directory tree, waits for each candidate image
file to become stable (its size sampled twice in a row, equal and nonzero),
and normalizes it in place: a bound-constrained resize to a
`MAX_WIDTH × MAX_HEIGHT` box and a forced HEIC/HEIF → JPEG conversion, with a
retry-bounded work queue of `(path, attempt)` pairs.

Shallow embedding choices:
* File paths are `List Char`; `str.lower()` is `List.map Char.toLower`
  (the recognized extensions are ASCII).
* The outcome stream of `os.path.getsize` inside the stability poll is a
  `List (Option Nat)`: `some n` is a successful stat returning `n` bytes,
  `none` is an `OSError`/`FileNotFoundError`.  The loop runs once per list
  entry, so the list length is the retry budget (`FILE_CHECK_RETRIES` for the
  call made by the program).  Sleeping is modeled by counting sleeps.
* A decoded image is its width, height, color mode string, and the two
  optional metadata byte blobs (`exif`, `icc_profile`) from `img.info`;
  pixel data is not modeled.  `PIL.Image.thumbnail`'s target-size computation
  is embedded over `ℚ` (exact arithmetic in place of Python floats), following
  Pillow's `preserve_aspect_ratio`/`round_aspect`.  The `img.draft` call for
  very large sources affects decode cost only and is not modeled.
* Filesystem writes/deletes are a list of effects; a failing `img.save` is an
  exception (no effect recorded, round fails), a failing `os.remove` is caught
  and logged by the source, so the remove *attempt* is recorded and the round
  still succeeds.
* The worker (`process_new_files` + `resize_image`) is a total function from a
  task and its round environment (stability outcome, decode outcome, metadata
  read failures, save/remove success) to effects plus an optional requeued
  task: exception containment in the source's `try/except` blocks is modeled
  by totality.
-/

/- Configuration constants of the source (module-level defaults). -/

def MAX_WIDTH : Nat := 1080

def MAX_HEIGHT : Nat := 768

def FILE_CHECK_RETRIES : Nat := 10

def MAX_QUEUE_RETRIES : Nat := 5

/-- `wait_for_file_stability`'s loop, instrumented.  Walks the stat-outcome
stream with the running `last_size` (initially `-1`), and returns
`(result, number of successful size samples taken, number of sleeps)`.
A successful sample equal to `last_size` and strictly positive returns `true`
at once (that iteration samples but does not sleep); any other successful
sample updates `last_size` and sleeps; a stat error sleeps and continues,
leaving `last_size` unchanged.  Exhausting the stream returns `false`. -/
def waitCount : List (Option Nat) → Int → Bool × Nat × Nat
  | [], _ => (false, 0, 0)
  | some cur :: rest, last =>
      if (cur : Int) = last ∧ 0 < cur then (true, 1, 0)
      else
        ((waitCount rest (cur : Int)).1,
         (waitCount rest (cur : Int)).2.1 + 1,
         (waitCount rest (cur : Int)).2.2 + 1)
  | none :: rest, last =>
      ((waitCount rest last).1,
       (waitCount rest last).2.1,
       (waitCount rest last).2.2 + 1)

/-- `wait_for_file_stability(file_path)`: the boolean result of the poll loop
on a given stream of stat outcomes (the first `max_retries` of them). -/
def wait_for_file_stability (samples : List (Option Nat)) : Bool :=
  (waitCount samples (-1)).1

/-- Spec-side notion for C2: some two *consecutive raw samples* (adjacent loop
iterations, both successful) are equal and strictly positive. -/
def hasAdjStableSample : List (Option Nat) → Bool
  | some a :: some b :: rest =>
      (decide (a = b) && decide (0 < a)) || hasAdjStableSample (some b :: rest)
  | _ :: rest => hasAdjStableSample rest
  | [] => false

/-- Spec-side notion (amended C2): some two adjacent entries of a size list
are equal and strictly positive. -/
def hasAdjPosPair : List Nat → Bool
  | a :: b :: rest =>
      (decide (a = b) && decide (0 < a)) || hasAdjPosPair (b :: rest)
  | _ => false

/-- Helper mirror of the poll loop on the successful samples only, carrying
the previous size. -/
def stablePairFrom : Int → List Nat → Bool
  | _, [] => false
  | last, c :: rest =>
      if (c : Int) = last ∧ 0 < c then true else stablePairFrom (c : Int) rest

/- Path handling (`str.lower`, `str.endswith`, `str.split('.')[-1]`,
`os.path.splitext`). -/

def lower (p : List Char) : List Char := p.map Char.toLower

/-- Boolean prefix test on char lists. -/
def startsWithSeq : List Char → List Char → Bool
  | [], _ => true
  | _ :: _, [] => false
  | a :: s, b :: t => (a == b) && startsWithSeq s t

/-- `t.endswith(s)` on char lists. -/
def endsWithSeq (s t : List Char) : Bool := startsWithSeq s.reverse t.reverse

/-- `p.split('.')[-1]`: everything after the last `'.'` (the whole string when
there is no dot). -/
def lastExt (p : List Char) : List Char :=
  (p.reverse.takeWhile (fun c => c != '.')).reverse

/-- `image_path.lower().split('.')[-1]` as used by `resize_image`. -/
def fileExt (p : List Char) : List Char := lastExt (lower p)

/-- `os.path.splitext` (POSIX): split off the extension beginning at the last
`'.'` of the basename, unless every character of the basename before that dot
is itself a dot (then there is no extension). -/
def splitext (p : List Char) : List Char × List Char :=
  let r := p.reverse
  let afterDot := r.takeWhile (fun c => !(c == '.' || c == '/'))
  match r.drop afterDot.length with
  | '.' :: r2 =>
      if (r2.takeWhile (fun c => c != '/')).any (fun c => c != '.') then
        (r2.reverse, '.' :: afterDot.reverse)
      else (p, [])
  | _ => (p, [])

def heicL : List Char := ['h', 'e', 'i', 'c']

def heifL : List Char := ['h', 'e', 'i', 'f']

def jpgL : List Char := ['j', 'p', 'g']

def jpegL : List Char := ['j', 'p', 'e', 'g']

def pngL : List Char := ['p', 'n', 'g']

def tiffL : List Char := ['t', 'i', 'f', 'f']

def bmpL : List Char := ['b', 'm', 'p']

def gifL : List Char := ['g', 'i', 'f']

def dotted (e : List Char) : List Char := '.' :: e

/-- `image_path.lower().endswith(('.heic', '.heif'))`. -/
def isHeicSuffix (p : List Char) : Bool :=
  endsWithSeq (dotted heicL) (lower p) || endsWithSeq (dotted heifL) (lower p)

/-- `is_image_file(filename)`: extension test used by the scanner and the
watchdog event bridge. -/
def is_image_file (p : List Char) : Bool :=
  [dotted pngL, dotted jpgL, dotted jpegL, dotted tiffL,
   dotted bmpL, dotted gifL, dotted heicL, dotted heifL].any
    (fun s => endsWithSeq s (lower p))

/- Image data model and the transform policy of `resize_image`. -/

/-- Output formats passed explicitly to `img.save`. -/
inductive ImgFormat where
  | JPEG
  | PNG
  | TIFF
deriving DecidableEq

/-- A decoded image: dimensions, color mode, optional metadata blobs. -/
structure ImageData where
  width : Nat
  height : Nat
  mode : String
  exif : Option (List Nat)
  icc_profile : Option (List Nat)
deriving DecidableEq

/-- Color-mode step: `if img.mode == 'RGBA': pass; elif img.mode != 'RGB':
img = img.convert('RGB')`. -/
def normalizeMode (m : String) : String :=
  if m = "RGBA" then m else if m ≠ "RGB" then "RGB" else m

def normalizeImage (img : ImageData) : ImageData :=
  ⟨img.width, img.height, normalizeMode img.mode, img.exif, img.icc_profile⟩

/-- Python truthiness of an optional bytes blob (`if exif:`): present and
nonempty. -/
def truthy : Option (List Nat) → Bool
  | none => false
  | some b => !b.isEmpty

/-- A keyword argument added only when the blob is truthy. -/
def addIf (o : Option (List Nat)) : Option (List Nat) :=
  if truthy o then o else none

/-- The keyword arguments of one `img.save` call.  `compression = some none`
models the explicit `'compression': None` for TIFF. -/
structure SaveArgs where
  format : Option ImgFormat
  quality : Option Nat
  optimize : Option Bool
  compression : Option (Option String)
  exif : Option (List Nat)
  icc_profile : Option (List Nat)
deriving DecidableEq

/-- `{'format': 'JPEG', 'quality': 100, 'optimize': False}` plus the
conditionally added metadata keywords. -/
def jpegArgs (exif icc : Option (List Nat)) : SaveArgs :=
  ⟨some ImgFormat.JPEG, some 100, some false, none, addIf exif, addIf icc⟩

/-- Save arguments of the non-HEIC resize branch, keyed on the file
extension. -/
def plainArgs (ext : List Char) (exif icc : Option (List Nat)) : SaveArgs :=
  if ext = jpgL ∨ ext = jpegL then jpegArgs exif icc
  else if ext = pngL then ⟨some ImgFormat.PNG, none, some false, none, none, addIf icc⟩
  else if ext = tiffL then ⟨some ImgFormat.TIFF, none, none, some none, none, addIf icc⟩
  else ⟨none, none, none, none, none, addIf icc⟩

/-- Pillow's `round_aspect(number, key)`:
`max(min(math.floor(number), math.ceil(number), key=key), 1)` (over ℚ). -/
def round_aspect (number : ℚ) (key : ℤ → ℚ) : ℤ :=
  max (if key ⌊number⌋ ≤ key ⌈number⌉ then ⌊number⌋ else ⌈number⌉) 1

/-- Pillow's `Image.thumbnail` target-size computation
(`preserve_aspect_ratio`) for a bounding box `(bw, bh)`: if the image already
fits, the size is unchanged; otherwise the aspect ratio `w / h` decides which
bound is tight and the other dimension is rounded to the nearest of floor and
ceiling (by the `key` functions of the source), with a minimum of 1. -/
def thumbnailSize (w h bw bh : Nat) : ℤ × ℤ :=
  if bw ≥ w ∧ bh ≥ h then ((w : ℤ), (h : ℤ))
  else
    if (bw : ℚ) / (bh : ℚ) ≥ (w : ℚ) / (h : ℚ) then
      (round_aspect ((bh : ℚ) * ((w : ℚ) / (h : ℚ)))
        (fun n => |(w : ℚ) / (h : ℚ) - (n : ℚ) / (bh : ℚ)|),
       (bh : ℤ))
    else
      ((bw : ℤ),
       round_aspect ((bw : ℚ) / ((w : ℚ) / (h : ℚ)))
        (fun n => if n = 0 then 0 else |(w : ℚ) / (h : ℚ) - (bw : ℚ) / (n : ℚ)|))

/-- `img.thumbnail((MAX_WIDTH, MAX_HEIGHT), Image.LANCZOS)` applied to the
image abstraction. -/
def applyThumbnail (img : ImageData) : ImageData :=
  ⟨(thumbnailSize img.width img.height MAX_WIDTH MAX_HEIGHT).1.toNat,
   (thumbnailSize img.width img.height MAX_WIDTH MAX_HEIGHT).2.toNat,
   img.mode, img.exif, img.icc_profile⟩

/-- "The larger scale-down factor of width-ratio and height-ratio" (spec-side
notion for C6). -/
def scaleFactor (w h : Nat) : ℚ :=
  max ((w : ℚ) / (MAX_WIDTH : ℚ)) ((h : ℚ) / (MAX_HEIGHT : ℚ))

/-- One filesystem effect of processing: an `img.save(path, **args)` call or
an `os.remove(path)` attempt (whose own failure the source catches and
logs). -/
inductive FsEffect where
  | write (path : List Char) (args : SaveArgs) (img : ImageData)
  | removeAttempt (path : List Char)
deriving DecidableEq

/-- `os.path.splitext(image_path)[0] + '.jpg'`. -/
def heicTarget (p : List Char) : List Char := (splitext p).1 ++ dotted jpgL

/-- The body of `resize_image` after a successful `Image.open`:
metadata reads (a failure yields `None`), the color-mode step, the bound
check, the HEIC/JPEG conversion policy, and the save-argument selection.
Returns the filesystem effects and whether the round succeeded (`false` means
the save raised, propagating to the outer `except`). -/
def processStable (p : List Char) (img0 : ImageData)
    (exifReadFails iccReadFails saveOk _removeOk : Bool) :
    List FsEffect × Bool :=
  let exif := if exifReadFails then none else img0.exif
  let icc := if iccReadFails then none else img0.icc_profile
  let img1 := normalizeImage img0
  if img1.width ≤ MAX_WIDTH ∧ img1.height ≤ MAX_HEIGHT then
    if isHeicSuffix p then
      if saveOk then
        ([FsEffect.write (heicTarget p) (jpegArgs exif icc) img1,
          FsEffect.removeAttempt p], true)
      else ([], false)
    else ([], true)
  else
    if fileExt p = heicL ∨ fileExt p = heifL then
      if saveOk then
        ([FsEffect.write (heicTarget p) (jpegArgs exif icc) (applyThumbnail img1),
          FsEffect.removeAttempt p], true)
      else ([], false)
    else
      if saveOk then
        ([FsEffect.write p (plainArgs (fileExt p) exif icc) (applyThumbnail img1)], true)
      else ([], false)

/- QTask queue and the worker's retry policy. -/

/-- A queued unit of work: `(image_path, attempt)`. -/
structure QTask where
  path : List Char
  attempt : Nat
deriving DecidableEq

/-- Outcome of `Image.open` + decode for one round. -/
inductive DecodeResult where
  | fail
  | ok (img : ImageData)
deriving DecidableEq

/-- Environment of one processing round: what the filesystem and codec do. -/
structure RoundEnv where
  stable : Bool
  decode : DecodeResult
  exifReadFails : Bool
  iccReadFails : Bool
  saveOk : Bool
  removeOk : Bool
deriving DecidableEq

/-- The requeue-or-drop policy: `if attempt < MAX_QUEUE_RETRIES:
file_queue.put((image_path, attempt + 1))`. -/
def requeueOrDrop (t : QTask) : Option QTask :=
  if t.attempt < MAX_QUEUE_RETRIES then some ⟨t.path, t.attempt + 1⟩ else none

/-- `resize_image(image_path, attempt)`: instability and any error raised
while processing (decode failure, or a failing save surfacing from the body)
are caught and fall to the requeue-or-drop policy; success requeues nothing.
Totality of this function models the source's catch-all exception
containment. -/
def resize_image (t : QTask) (env : RoundEnv) : List FsEffect × Option QTask :=
  if env.stable = false then ([], requeueOrDrop t)
  else
    match env.decode with
    | DecodeResult.fail => ([], requeueOrDrop t)
    | DecodeResult.ok img =>
        if (processStable t.path img env.exifReadFails env.iccReadFails
              env.saveOk env.removeOk).2 then
          ((processStable t.path img env.exifReadFails env.iccReadFails
              env.saveOk env.removeOk).1, none)
        else
          ((processStable t.path img env.exifReadFails env.iccReadFails
              env.saveOk env.removeOk).1, requeueOrDrop t)

/-- Queue events: a producer push (scanner or event bridge, `attempt = 1`) or
the worker handling the head task in some round environment. -/
inductive QEvent where
  | arrive (p : List Char)
  | work (env : RoundEnv)

/-- FIFO queue transition: producers append `(path, 1)`; the worker pops the
head and appends the requeued successor task, if any. -/
def stepQueue : List QTask → QEvent → List QTask
  | q, QEvent.arrive p => q ++ [⟨p, 1⟩]
  | [], QEvent.work _ => []
  | t :: q, QEvent.work env =>
      match (resize_image t env).2 with
      | some t2 => q ++ [t2]
      | none => q

def runQueue (q : List QTask) (evs : List QEvent) : List QTask :=
  evs.foldl stepQueue q

/-- Round environment of a stable file whose decode always raises. -/
def failEnv : RoundEnv := ⟨true, DecodeResult.fail, false, false, true, true⟩

/-- Trajectory of a single permanently-corrupt file: the task present after
`n` failed rounds, starting from `(p, 1)`; `none` once it has been dropped . -/
def requeueChain (p : List Char) : Nat → Option QTask
  | 0 => some ⟨p, 1⟩
  | n + 1 =>
      match requeueChain p n with
      | some t => (resize_image t failEnv).2
      | none => none

/-- The task-attempt invariant. -/
def QTaskOK (t : QTask) : Prop := 1 ≤ t.attempt ∧ t.attempt ≤ MAX_QUEUE_RETRIES

/- Concrete inputs used by witnesses and counterexamples. -/

def c2CexSamples : List (Option Nat) :=
  [some 5, none, some 5, none, none, none, none, none, none, none]

def c7WitSizes : List Nat := [1, 2, 3, 4, 5, 6, 7, 8, 9, 10]

def c7WitSamples : List (Option Nat) :=
  [some 3, some 3, none, none, none, none, none, none, none, none]

def heicPathA : List Char := ['a', '.', 'h', 'e', 'i', 'c']

def heicPathB : List Char := ['b', '.', 'h', 'e', 'i', 'c']

def c8CexImage : ImageData := ⟨100, 100, "RGB", some [], none⟩

def c8WitImage : ImageData := ⟨100, 100, "RGB", some [1], some [2]⟩

def c4WitPath : List Char := ['a', '.', 'j', 'p', 'g']

def c4WitImage : ImageData := ⟨800, 600, "RGB", none, none⟩

def c5WitImage : ImageData := ⟨500, 400, "RGB", none, none⟩

def c10WitPath : List Char := ['a', '.', 'b', 'm', 'p']

def c10WitImage : ImageData := ⟨2000, 100, "RGB", none, none⟩

/- Lemmas about the stability poll. -/

lemma waitCount_fst_filterMap :
    ∀ (l : List (Option Nat)) (last : Int),
      (waitCount l last).1 = stablePairFrom last (l.filterMap id) := by
  intro l
  induction l with
  | nil => intro last; simp [waitCount, stablePairFrom]
  | cons o rest ih =>
      intro last
      cases o with
      | none => simp [waitCount, List.filterMap_cons, ih]
      | some c =>
          by_cases hc : (c : Int) = last ∧ 0 < c
          · simp [waitCount, List.filterMap_cons, stablePairFrom, hc]
          · simp [waitCount, List.filterMap_cons, stablePairFrom, hc, ih]

lemma stablePairFrom_natCast (l : List Nat) :
    ∀ c : Nat, stablePairFrom (c : Int) l = hasAdjPosPair (c :: l) := by
  induction l with
  | nil => intro c; simp [stablePairFrom, hasAdjPosPair]
  | cons d rest ih =>
      intro c
      by_cases hdc : d = c
      · subst hdc
        by_cases hd : 0 < d
        · simp [stablePairFrom, hasAdjPosPair, hd]
        · simp [stablePairFrom, hasAdjPosPair, hd, ih]
      · have hic : ¬((d : Int) = (c : Int)) := by exact_mod_cast hdc
        simp only [stablePairFrom, hic, false_and, if_false, ih d, hasAdjPosPair]
        have hcd : decide (c = d) = false := by
          apply decide_eq_false
          intro h
          exact hdc h.symm
        rw [hcd]
        simp

lemma stablePairFrom_neg_one (l : List Nat) :
    stablePairFrom (-1) l = hasAdjPosPair l := by
  cases l with
  | nil => simp [stablePairFrom, hasAdjPosPair]
  | cons c rest =>
      have hne : ¬((c : Int) = -1) := by omega
      simp [stablePairFrom, hne, stablePairFrom_natCast]

lemma waitCount_growing :
    ∀ (l : List Nat) (last : Int),
      (∀ a ∈ l.head?, last < (a : Int)) → List.Chain' (· < ·) l →
      waitCount (l.map some) last = (false, l.length, l.length) := by
  intro l
  induction l with
  | nil => intro last _ _; simp [waitCount]
  | cons a rest ih =>
      intro last hhead hchain
      rw [List.chain'_cons'] at hchain
      have hla : last < (a : Int) := hhead a (by simp)
      have hne : ¬((a : Int) = last ∧ 0 < a) := by omega
      have hh2 : ∀ b ∈ rest.head?, (a : Int) < (b : Int) := by
        intro b hb
        exact_mod_cast hchain.1 b hb
      simp [waitCount, hne, ih (a : Int) hh2 hchain.2]

lemma waitCount_true_of_pair :
    ∀ (i : Nat) (l : List (Option Nat)) (s : Nat) (last : Int),
      l.get? i = some (some s) → l.get? (i + 1) = some (some s) → 0 < s →
      (waitCount l last).1 = true := by
  intro i
  induction i with
  | zero =>
      intro l s last h0 h1 hs
      cases l with
      | nil => simp at h0
      | cons o rest =>
          have ho : o = some s := by simpa using h0
          subst ho
          cases rest with
          | nil => simp at h1
          | cons o2 rest2 =>
              have ho2 : o2 = some s := by simpa using h1
              subst ho2
              by_cases hc : (s : Int) = last
              · simp [waitCount, hc, hs]
              · simp [waitCount, hc, hs]
  | succ i ih =>
      intro l s last h0 h1 hs
      cases l with
      | nil => simp at h0
      | cons o rest =>
          have h0' : rest.get? i = some (some s) := by simpa using h0
          have h1' : rest.get? (i + 1) = some (some s) := by simpa using h1
          cases o with
          | none => simpa [waitCount] using ih rest s last h0' h1' hs
          | some c =>
              by_cases hc : (c : Int) = last ∧ 0 < c
              · simp [waitCount, hc]
              · simpa [waitCount, hc] using ih rest s (c : Int) h0' h1' hs

lemma waitCount_samples_le :
    ∀ (l : List (Option Nat)) (last : Int), (waitCount l last).2.1 ≤ l.length := by
  intro l
  induction l with
  | nil => intro last; simp [waitCount]
  | cons o rest ih =>
      intro last
      cases o with
      | none =>
          calc (waitCount (none :: rest) last).2.1 = (waitCount rest last).2.1 := by
                simp [waitCount]
            _ ≤ rest.length := ih last
            _ ≤ (none :: rest).length := by simp
      | some c =>
          by_cases hc : (c : Int) = last ∧ 0 < c
          · simp [waitCount, hc]
          · simp only [waitCount, hc, if_false, List.length_cons]
            exact Nat.succ_le_succ (ih (c : Int))

/-- C2: `wait_for_file_stability` returns true as soon as two consecutive
samples are equal and strictly positive, false when the budget is exhausted,
and (per the claim) two equal positive samples separated by a stat error do
NOT count as consecutive.  Counterexample: on the outcome stream
`[some 5, error, some 5, error, ...]` of full budget length
`FILE_CHECK_RETRIES`, no two consecutive samples are equal-and-positive, yet
the function returns `true`, because a stat error leaves `last_size`
unchanged. -/
theorem spec_c2_counterexample :
    c2CexSamples.length = FILE_CHECK_RETRIES ∧
    hasAdjStableSample c2CexSamples = false ∧
    wait_for_file_stability c2CexSamples = true := by
  refine ⟨rfl, rfl, rfl⟩

/-- C2 (amended): with the retry budget equal to the number of observations,
`wait_for_file_stability` returns true exactly when the subsequence of
*successful* samples contains two adjacent equal, strictly positive entries:
a stat error never terminates the loop early and does not itself count as a
sample, but it also does not reset the last-seen size, so two equal positive
samples separated only by stat errors DO count as consecutive. -/
theorem spec_c2_amended (samples : List (Option Nat)) :
    wait_for_file_stability samples = hasAdjPosPair (samples.filterMap id) := by
  unfold wait_for_file_stability
  rw [waitCount_fst_filterMap, stablePairFrom_neg_one]

/-- C7: (a) on a stream of `FILE_CHECK_RETRIES` successful, strictly growing
size samples, the poll returns false having taken exactly
`FILE_CHECK_RETRIES` size samples and slept exactly `FILE_CHECK_RETRIES`
times (of `FILE_CHECK_INTERVAL` each); (b) if two consecutive samples within
the budget are equal and strictly positive, it returns true, after at most
`FILE_CHECK_RETRIES` samples. -/
theorem spec_c7 :
    (∀ sizes : List Nat, sizes.length = FILE_CHECK_RETRIES →
        List.Chain' (· < ·) sizes →
        waitCount (sizes.map some) (-1) =
          (false, FILE_CHECK_RETRIES, FILE_CHECK_RETRIES)) ∧
    (∀ (samples : List (Option Nat)) (i s : Nat),
        samples.length = FILE_CHECK_RETRIES →
        samples.get? i = some (some s) → samples.get? (i + 1) = some (some s) →
        0 < s →
        wait_for_file_stability samples = true ∧
          (waitCount samples (-1)).2.1 ≤ FILE_CHECK_RETRIES) := by
  constructor
  · intro sizes hlen hchain
    have hhead : ∀ a ∈ sizes.head?, (-1 : Int) < (a : Int) := by
      intro a _
      omega
    rw [waitCount_growing sizes (-1) hhead hchain, hlen]
  · intro samples i s hlen h0 h1 hs
    refine ⟨waitCount_true_of_pair i samples s (-1) h0 h1 hs, ?_⟩
    calc (waitCount samples (-1)).2.1 ≤ samples.length :=
          waitCount_samples_le samples (-1)
      _ = FILE_CHECK_RETRIES := hlen

/-- Witness for C7 at concrete inputs: strictly growing sizes 1..10 exhaust
the budget with 10 samples and 10 sleeps; an immediately-stable stream
returns true. -/
theorem spec_c7_witness :
    waitCount (c7WitSizes.map some) (-1) =
      (false, FILE_CHECK_RETRIES, FILE_CHECK_RETRIES) ∧
    (wait_for_file_stability c7WitSamples = true ∧
      (waitCount c7WitSamples (-1)).2.1 ≤ FILE_CHECK_RETRIES) :=
  ⟨spec_c7.1 c7WitSizes (by decide) (by norm_num [c7WitSizes, List.chain'_cons]),
   spec_c7.2 c7WitSamples 0 3 (by decide) (by decide) (by decide) (by decide)⟩

/- Lemmas about the retry-bounded queue. -/

lemma requeueOrDrop_ok {t t2 : QTask} (ht : QTaskOK t)
    (h : requeueOrDrop t = some t2) : QTaskOK t2 := by
  unfold requeueOrDrop at h
  by_cases hlt : t.attempt < MAX_QUEUE_RETRIES
  · rw [if_pos hlt] at h
    cases h
    exact ⟨Nat.le_add_left 1 t.attempt, hlt⟩
  · rw [if_neg hlt] at h
    cases h

lemma resize_requeue_ok {t t2 : QTask} {env : RoundEnv} (ht : QTaskOK t)
    (h : (resize_image t env).2 = some t2) : QTaskOK t2 := by
  unfold resize_image at h
  split at h
  · exact requeueOrDrop_ok ht h
  · split at h
    · exact requeueOrDrop_ok ht h
    · split at h
      · simp at h
      · exact requeueOrDrop_ok ht h

lemma stepQueue_ok {q : List QTask} {e : QEvent} (hq : ∀ t ∈ q, QTaskOK t) :
    ∀ t2 ∈ stepQueue q e, QTaskOK t2 := by
  cases e with
  | arrive p =>
      intro t2 ht2
      simp only [stepQueue] at ht2
      rcases List.mem_append.mp ht2 with h | h
      · exact hq _ h
      · have : t2 = ⟨p, 1⟩ := by simpa using h
        subst this
        refine ⟨le_refl 1, ?_⟩
        show (1 : Nat) ≤ MAX_QUEUE_RETRIES
        decide
  | work env =>
      cases q with
      | nil =>
          intro t2 ht2
          simp [stepQueue] at ht2
      | cons t q2 =>
          intro t2 ht2
          simp only [stepQueue] at ht2
          cases hre : (resize_image t env).2 with
          | none =>
              rw [hre] at ht2
              exact hq _ (List.mem_cons_of_mem _ ht2)
          | some t3 =>
              rw [hre] at ht2
              rcases List.mem_append.mp ht2 with h | h
              · exact hq _ (List.mem_cons_of_mem _ h)
              · have : t2 = t3 := by simpa using h
                subst this
                exact resize_requeue_ok (hq t (List.mem_cons_self _ _)) hre

lemma runQueue_ok :
    ∀ (evs : List QEvent) (q : List QTask), (∀ t ∈ q, QTaskOK t) →
      ∀ t2 ∈ runQueue q evs, QTaskOK t2 := by
  intro evs
  induction evs with
  | nil =>
      intro q hq t2 ht2
      exact hq _ (by simpa [runQueue] using ht2)
  | cons e evs ih =>
      intro q hq t2 ht2
      exact ih (stepQueue q e) (stepQueue_ok hq) t2 (by simpa [runQueue] using ht2)

/-- C1: along every event trace from the empty queue (producers push
`attempt = 1`, the worker requeues `(path, attempt + 1)` only when
`attempt < MAX_QUEUE_RETRIES`), every queued task satisfies
`1 ≤ attempt ≤ MAX_QUEUE_RETRIES`; and a task at `MAX_QUEUE_RETRIES` is never
re-enqueued, whatever the round does. -/
theorem spec_c1 :
    (∀ evs : List QEvent, ∀ t ∈ runQueue [] evs,
        1 ≤ t.attempt ∧ t.attempt ≤ MAX_QUEUE_RETRIES) ∧
    (∀ (p : List Char) (env : RoundEnv),
        (resize_image ⟨p, MAX_QUEUE_RETRIES⟩ env).2 = none) := by
  constructor
  · intro evs t ht
    exact runQueue_ok evs [] (by intro t2 h; simp at h) t ht
  · intro p env
    have hnone : requeueOrDrop ⟨p, MAX_QUEUE_RETRIES⟩ = none := by
      simp [requeueOrDrop]
    unfold resize_image
    split
    · exact hnone
    · split
      · exact hnone
      · split
        · rfl
        · exact hnone

/-- Witness for C1: the task pushed by one arrival satisfies the invariant,
and a max-attempt task is dropped in the always-failing environment. -/
theorem spec_c1_witness :
    (1 ≤ (QTask.mk [] 1).attempt ∧ (QTask.mk [] 1).attempt ≤ MAX_QUEUE_RETRIES) ∧
    (resize_image ⟨[], MAX_QUEUE_RETRIES⟩ failEnv).2 = none :=
  ⟨spec_c1.1 [QEvent.arrive []] ⟨[], 1⟩ (by decide), spec_c1.2 [] failEnv⟩

/-- C3: a stable file whose decode always raises is requeued exactly
`MAX_QUEUE_RETRIES - 1 = 4` times, with attempt values 2, 3, 4, 5
(`= MAX_QUEUE_RETRIES`), and from then on permanently dropped; the round
function is total (the source's catch-all `except` contains every per-task
error), so the worker loop survives every round. -/
theorem spec_c3 (p : List Char) :
    requeueChain p 0 = some ⟨p, 1⟩ ∧
    requeueChain p 1 = some ⟨p, 2⟩ ∧
    requeueChain p 2 = some ⟨p, 3⟩ ∧
    requeueChain p 3 = some ⟨p, 4⟩ ∧
    requeueChain p 4 = some ⟨p, MAX_QUEUE_RETRIES⟩ ∧
    (∀ m : Nat, requeueChain p (MAX_QUEUE_RETRIES + m) = none) := by
  refine ⟨rfl, rfl, rfl, rfl, rfl, ?_⟩
  intro m
  induction m with
  | zero => rfl
  | succ m ih =>
      show requeueChain p ((MAX_QUEUE_RETRIES + m) + 1) = none
      simp only [requeueChain, ih]

/- Lemmas about extensions and suffixes. -/

lemma takeWhileAllAppend (q : Char → Bool) (d : Char) (u : List Char)
    (hd : q d = false) :
    ∀ l : List Char, (∀ c ∈ l, q c = true) → List.takeWhile q (l ++ d :: u) = l := by
  intro l
  induction l with
  | nil =>
      intro _
      simp [List.takeWhile_cons, hd]
  | cons c l ih =>
      intro hl
      have hc : q c = true := hl c (List.mem_cons_self _ _)
      simp [List.takeWhile_cons, hc, ih (fun x hx => hl x (List.mem_cons_of_mem _ hx))]

lemma startsWithSeq_exists :
    ∀ (s t : List Char), startsWithSeq s t = true → ∃ u, t = s ++ u := by
  intro s
  induction s with
  | nil => intro t _; exact ⟨t, rfl⟩
  | cons a s ih =>
      intro t h
      cases t with
      | nil => simp [startsWithSeq] at h
      | cons b t =>
          rw [startsWithSeq, Bool.and_eq_true] at h
          have hab : a = b := by
            have := h.1
            simpa using this
          obtain ⟨u, hu⟩ := ih t h.2
          exact ⟨u, by rw [hab, hu]; rfl⟩

lemma lastExt_of_endsWith (s p : List Char)
    (hnd : ∀ c ∈ s, (c != '.') = true)
    (hp : endsWithSeq (dotted s) p = true) : lastExt p = s := by
  obtain ⟨u, hu⟩ := startsWithSeq_exists (dotted s).reverse p.reverse hp
  have hrev : p.reverse = s.reverse ++ '.' :: u := by
    rw [hu]
    simp [dotted]
  unfold lastExt
  rw [hrev,
    takeWhileAllAppend _ '.' u (by decide) s.reverse
      (fun c hc => hnd c (List.mem_reverse.mp hc))]
  exact List.reverse_reverse s

lemma fileExt_of_suffix (e p : List Char)
    (hnd : ∀ c ∈ e, (c != '.') = true)
    (hp : endsWithSeq (dotted e) (lower p) = true) : fileExt p = e :=
  lastExt_of_endsWith e (lower p) hnd hp

lemma heicExt {p : List Char} (h : isHeicSuffix p = true) :
    fileExt p = heicL ∨ fileExt p = heifL := by
  have h2 : endsWithSeq (dotted heicL) (lower p) = true ∨
      endsWithSeq (dotted heifL) (lower p) = true := by
    simpa [isHeicSuffix] using h
  rcases h2 with h1 | h1
  · exact Or.inl (fileExt_of_suffix heicL p (by decide) h1)
  · exact Or.inr (fileExt_of_suffix heifL p (by decide) h1)

/-- C4: a stable, decoded image within both bounds whose path is not
HEIC/HEIF-suffixed produces no filesystem effect at all and the round
succeeds, so the task is not requeued; running the transform again on the
unchanged file is the same no-op. -/
theorem spec_c4 (p : List Char) (img : ImageData) (eF iF sOk rOk : Bool)
    (h1 : img.width ≤ MAX_WIDTH) (h2 : img.height ≤ MAX_HEIGHT)
    (h3 : isHeicSuffix p = false) :
    processStable p img eF iF sOk rOk = ([], true) ∧
    (∀ a : Nat,
      (resize_image ⟨p, a⟩ ⟨true, DecodeResult.ok img, eF, iF, sOk, rOk⟩).2 = none) := by
  have hps : processStable p img eF iF sOk rOk = ([], true) := by
    simp [processStable, normalizeImage, h1, h2, h3]
  exact ⟨hps, fun a => by simp [resize_image, hps]⟩

/-- Witness for C4: an 800×600 RGB JPEG within the 1080×768 bounds is left
untouched. -/
theorem spec_c4_witness :
    processStable c4WitPath c4WitImage false false true true = ([], true) ∧
    (∀ a : Nat,
      (resize_image ⟨c4WitPath, a⟩
        ⟨true, DecodeResult.ok c4WitImage, false, false, true, true⟩).2 = none) :=
  spec_c4 c4WitPath c4WitImage false false true true (by decide) (by decide) (by decide)

/-- C5: a stable, decoded HEIC/HEIF source — in bounds or not — is written to
`splitext(path)[0] + '.jpg'` as JPEG, quality 100, optimize disabled (with
the truthy metadata blobs), then the original is remove-attempted; whether or
not the removal raises (`rOk` arbitrary), the round succeeds and the task is
not requeued. -/
theorem spec_c5 (p : List Char) (img : ImageData) (eF iF rOk : Bool) (a : Nat)
    (hheic : isHeicSuffix p = true) :
    (∃ io : ImageData,
        (processStable p img eF iF true rOk).1 =
          [FsEffect.write (heicTarget p)
              (jpegArgs (if eF then none else img.exif)
                (if iF then none else img.icc_profile)) io,
           FsEffect.removeAttempt p]) ∧
    (processStable p img eF iF true rOk).2 = true ∧
    (resize_image ⟨p, a⟩ ⟨true, DecodeResult.ok img, eF, iF, true, rOk⟩).2 = none := by
  have hext := heicExt hheic
  by_cases hb : img.width ≤ MAX_WIDTH ∧ img.height ≤ MAX_HEIGHT
  · have hps : processStable p img eF iF true rOk =
        ([FsEffect.write (heicTarget p)
            (jpegArgs (if eF then none else img.exif)
              (if iF then none else img.icc_profile)) (normalizeImage img),
          FsEffect.removeAttempt p], true) := by
      simp [processStable, normalizeImage, hb.1, hb.2, hheic]
    exact ⟨⟨normalizeImage img, by rw [hps]⟩, by rw [hps], by simp [resize_image, hps]⟩
  · have hps : processStable p img eF iF true rOk =
        ([FsEffect.write (heicTarget p)
            (jpegArgs (if eF then none else img.exif)
              (if iF then none else img.icc_profile))
            (applyThumbnail (normalizeImage img)),
          FsEffect.removeAttempt p], true) := by
      simp [processStable, normalizeImage, hb, hext]
    exact ⟨⟨applyThumbnail (normalizeImage img), by rw [hps]⟩, by rw [hps],
      by simp [resize_image, hps]⟩

/-- Witness for C5: a 500×400 (in-bounds) HEIC file is converted to
`a.jpg` and its original remove-attempted. -/
theorem spec_c5_witness :
    (∃ io : ImageData,
        (processStable heicPathA c5WitImage false false true true).1 =
          [FsEffect.write (heicTarget heicPathA)
              (jpegArgs (if false then none else c5WitImage.exif)
                (if false then none else c5WitImage.icc_profile)) io,
           FsEffect.removeAttempt heicPathA]) ∧
    (processStable heicPathA c5WitImage false false true true).2 = true ∧
    (resize_image ⟨heicPathA, 1⟩
      ⟨true, DecodeResult.ok c5WitImage, false, false, true, true⟩).2 = none :=
  spec_c5 heicPathA c5WitImage false false true 1 (by decide)

/-- C9: the color-mode step leaves the mode unchanged exactly when it is the
alpha-capable mode `RGBA` or already `RGB`; the result is `RGBA` exactly when
the source was (alpha preserved when present, never added when absent); every
other mode is converted to `RGB`. -/
theorem spec_c9 (m : String) :
    (normalizeMode m = m ↔ (m = "RGBA" ∨ m = "RGB")) ∧
    (normalizeMode m = "RGBA" ↔ m = "RGBA") ∧
    (normalizeMode m = m ∨ normalizeMode m = "RGB") := by
  by_cases h1 : m = "RGBA"
  · subst h1
    decide
  · by_cases h2 : m = "RGB"
    · subst h2
      decide
    · unfold normalizeMode
      rw [if_neg h1, if_pos h2]
      exact ⟨⟨fun h => absurd h.symm h2,
              fun h => h.elim (fun h => absurd h h1) (fun h => absurd h h2)⟩,
             ⟨fun h => absurd h (by decide), fun h => absurd h h1⟩,
             Or.inr rfl⟩

/-- C8: the claim says a present EXIF blob is passed through byte-for-byte
into a JPEG output encode.  Counterexample: a present-but-empty blob
(`some []`, Python-falsy `b''`) on an in-bounds HEIC source is dropped by the
`if exif:` truthiness test — the JPEG encode carries no `exif` keyword. -/
theorem spec_c8_counterexample :
    c8CexImage.exif = some [] ∧
    (processStable heicPathA c8CexImage false false true true).1 =
      [FsEffect.write (heicTarget heicPathA)
          ⟨some ImgFormat.JPEG, some 100, some false, none, none, none⟩ c8CexImage,
       FsEffect.removeAttempt heicPathA] := by
  exact ⟨rfl, rfl⟩

/-- C8 (amended): every write emitted by processing carries the ICC blob
whenever it is present *and nonempty* (Python truthiness), whatever the
output format; it carries the EXIF blob (again iff truthy) exactly when the
explicit output format is JPEG; a failed metadata read (`eF`/`iF`) is treated
as absence and never aborts processing. -/
theorem spec_c8_amended (p : List Char) (img : ImageData) (eF iF sOk rOk : Bool)
    (q : List Char) (args : SaveArgs) (io : ImageData)
    (hmem : FsEffect.write q args io ∈ (processStable p img eF iF sOk rOk).1) :
    args.icc_profile = addIf (if iF then none else img.icc_profile) ∧
    (args.format = some ImgFormat.JPEG →
      args.exif = addIf (if eF then none else img.exif)) ∧
    (args.format ≠ some ImgFormat.JPEG → args.exif = none) := by
  simp only [processStable] at hmem
  split at hmem
  · split at hmem
    · split at hmem
      · simp at hmem
        obtain ⟨hq, ha, hio⟩ := hmem
        subst ha
        exact ⟨rfl, fun _ => rfl, fun hne => absurd rfl hne⟩
      · simp at hmem
    · simp at hmem
  · split at hmem
    · split at hmem
      · simp at hmem
        obtain ⟨hq, ha, hio⟩ := hmem
        subst ha
        exact ⟨rfl, fun _ => rfl, fun hne => absurd rfl hne⟩
      · simp at hmem
    · split at hmem
      · simp at hmem
        obtain ⟨hq, ha, hio⟩ := hmem
        subst ha
        unfold plainArgs
        split
        · exact ⟨rfl, fun _ => rfl, fun hne => absurd rfl hne⟩
        · split
          · exact ⟨rfl, fun hf => by simp at hf, fun _ => rfl⟩
          · split
            · exact ⟨rfl, fun hf => by simp at hf, fun _ => rfl⟩
            · exact ⟨rfl, fun hf => by simp at hf, fun _ => rfl⟩
      · simp at hmem

/-- Witness for C8 (amended), at a truthy-metadata HEIC conversion. -/
theorem spec_c8_witness :
    (jpegArgs c8WitImage.exif c8WitImage.icc_profile).icc_profile =
      addIf c8WitImage.icc_profile ∧
    ((jpegArgs c8WitImage.exif c8WitImage.icc_profile).format = some ImgFormat.JPEG →
      (jpegArgs c8WitImage.exif c8WitImage.icc_profile).exif =
        addIf c8WitImage.exif) ∧
    ((jpegArgs c8WitImage.exif c8WitImage.icc_profile).format ≠ some ImgFormat.JPEG →
      (jpegArgs c8WitImage.exif c8WitImage.icc_profile).exif = none) :=
  spec_c8_amended heicPathB c8WitImage false false true true (heicTarget heicPathB)
    (jpegArgs c8WitImage.exif c8WitImage.icc_profile) (normalizeImage c8WitImage)
    (by decide)

/-- C10: a `.bmp`/`.gif` file (which `is_image_file` does admit to the queue,
case-insensitively) that exceeds the bounds is resized and saved back to the
*original* path with empty save arguments — no format, quality, optimize or
compression keyword, only the ICC profile when truthy — leaving the encoding
to be inferred from the extension. -/
theorem spec_c10 (p : List Char) (img : ImageData) (eF iF rOk : Bool)
    (hext : endsWithSeq (dotted bmpL) (lower p) = true ∨
            endsWithSeq (dotted gifL) (lower p) = true)
    (hbig : MAX_WIDTH < img.width ∨ MAX_HEIGHT < img.height) :
    is_image_file p = true ∧
    processStable p img eF iF true rOk =
      ([FsEffect.write p
          ⟨none, none, none, none, none, addIf (if iF then none else img.icc_profile)⟩
          (applyThumbnail (normalizeImage img))], true) := by
  have hfe : fileExt p = bmpL ∨ fileExt p = gifL := by
    rcases hext with h | h
    · exact Or.inl (fileExt_of_suffix bmpL p (by decide) h)
    · exact Or.inr (fileExt_of_suffix gifL p (by decide) h)
  constructor
  · rcases hext with h | h <;> simp [is_image_file, h]
  · have hb : ¬(img.width ≤ MAX_WIDTH ∧ img.height ≤ MAX_HEIGHT) := by
      rcases hbig with h | h
      · exact fun hc => absurd hc.1 (by omega)
      · exact fun hc => absurd hc.2 (by omega)
    have hnh : ¬(fileExt p = heicL ∨ fileExt p = heifL) := by
      rcases hfe with h | h <;> rw [h] <;> decide
    have hargs : plainArgs (fileExt p) (if eF then none else img.exif)
        (if iF then none else img.icc_profile) =
        ⟨none, none, none, none, none, addIf (if iF then none else img.icc_profile)⟩ := by
      rcases hfe with h | h <;> rw [h] <;> unfold plainArgs <;>
        rw [if_neg (by decide), if_neg (by decide), if_neg (by decide)]
    simp [processStable, normalizeImage, hb, hnh, hargs]

/-- Witness for C10: an oversized 2000×100 `a.bmp` is rewritten in place with
empty save arguments. -/
theorem spec_c10_witness :
    is_image_file c10WitPath = true ∧
    processStable c10WitPath c10WitImage false false true true =
      ([FsEffect.write c10WitPath
          ⟨none, none, none, none, none,
            addIf (if false then none else c10WitImage.icc_profile)⟩
          (applyThumbnail (normalizeImage c10WitImage))], true) :=
  spec_c10 c10WitPath c10WitImage false false true (Or.inl (by decide))
    (Or.inl (by decide))

/- Lemmas about Pillow's rounding. -/

lemma round_aspect_le (number : ℚ) (key : ℤ → ℚ) (B : ℕ) (hB : 1 ≤ B)
    (hle : number ≤ (B : ℚ)) : round_aspect number key ≤ (B : ℤ) := by
  unfold round_aspect
  have hceil : ⌈number⌉ ≤ (B : ℤ) := by
    rw [Int.ceil_le]
    push_cast
    exact hle
  have hfloor : ⌊number⌋ ≤ (B : ℤ) := by
    have h1 : (⌊number⌋ : ℚ) ≤ ((B : ℤ) : ℚ) := by
      calc (⌊number⌋ : ℚ) ≤ number := Int.floor_le number
        _ ≤ (B : ℚ) := hle
        _ = ((B : ℤ) : ℚ) := by push_cast; ring
    exact_mod_cast h1
  refine max_le ?_ ?_
  · split_ifs
    · exact hfloor
    · exact hceil
  · exact_mod_cast hB

lemma abs_max_one_sub_le (c : ℤ) (n : ℚ) (h0 : 0 ≤ n)
    (hc : |(c : ℚ) - n| ≤ 1) : |((max c 1 : ℤ) : ℚ) - n| ≤ 1 := by
  rcases le_or_lt 1 c with hcb | hcb
  · rw [max_eq_left hcb]
    exact hc
  · rw [max_eq_right hcb.le]
    have hc0 : c ≤ 0 := by omega
    have hc0' : (c : ℚ) ≤ 0 := by exact_mod_cast hc0
    have hn1 : n ≤ (c : ℚ) + 1 := by
      have := (abs_le.mp hc).1
      linarith
    rw [abs_le]
    constructor
    · push_cast
      linarith
    · push_cast
      linarith

lemma round_aspect_near (number : ℚ) (key : ℤ → ℚ) (h0 : 0 ≤ number) :
    |((round_aspect number key : ℤ) : ℚ) - number| ≤ 1 := by
  unfold round_aspect
  have hfloor : |((⌊number⌋ : ℤ) : ℚ) - number| ≤ 1 := by
    rw [abs_le]
    constructor
    · linarith [Int.sub_one_lt_floor number]
    · linarith [Int.floor_le number]
  have hceil : |((⌈number⌉ : ℤ) : ℚ) - number| ≤ 1 := by
    rw [abs_le]
    constructor
    · linarith [Int.le_ceil number]
    · linarith [Int.ceil_lt_add_one number]
  apply abs_max_one_sub_le _ _ h0
  split_ifs
  · exact hfloor
  · exact hceil

/-- C6: for an out-of-bounds decoded image, the thumbnail target size fits in
the `MAX_WIDTH × MAX_HEIGHT` box, and both dimensions are within one pixel of
the exact aspect-preserving size obtained by dividing by the larger
scale-down factor `max (w / MAX_WIDTH) (h / MAX_HEIGHT)`. -/
theorem spec_c6 (w h : Nat) (hw : 0 < w) (hh : 0 < h)
    (hbig : MAX_WIDTH < w ∨ MAX_HEIGHT < h) :
    (thumbnailSize w h MAX_WIDTH MAX_HEIGHT).1 ≤ (MAX_WIDTH : ℤ) ∧
    (thumbnailSize w h MAX_WIDTH MAX_HEIGHT).2 ≤ (MAX_HEIGHT : ℤ) ∧
    |((thumbnailSize w h MAX_WIDTH MAX_HEIGHT).1 : ℚ) -
        (w : ℚ) / scaleFactor w h| ≤ 1 ∧
    |((thumbnailSize w h MAX_WIDTH MAX_HEIGHT).2 : ℚ) -
        (h : ℚ) / scaleFactor w h| ≤ 1 := by
  have hw' : (0 : ℚ) < (w : ℚ) := by exact_mod_cast hw
  have hh' : (0 : ℚ) < (h : ℚ) := by exact_mod_cast hh
  have hh0 : (h : ℚ) ≠ 0 := ne_of_gt hh'
  have hw0 : (w : ℚ) ≠ 0 := ne_of_gt hw'
  have hbw : (0 : ℚ) < (MAX_WIDTH : ℚ) := by norm_num [MAX_WIDTH]
  have hbh : (0 : ℚ) < (MAX_HEIGHT : ℚ) := by norm_num [MAX_HEIGHT]
  have hbh0 : (MAX_HEIGHT : ℚ) ≠ 0 := ne_of_gt hbh
  have hbw0 : (MAX_WIDTH : ℚ) ≠ 0 := ne_of_gt hbw
  have hnotfit : ¬(MAX_WIDTH ≥ w ∧ MAX_HEIGHT ≥ h) := by omega
  unfold thumbnailSize
  rw [if_neg hnotfit]
  set aspect : ℚ := (w : ℚ) / (h : ℚ) with haspect
  have haq : 0 < aspect := by
    rw [haspect]
    exact div_pos hw' hh'
  by_cases hcase : (MAX_WIDTH : ℚ) / (MAX_HEIGHT : ℚ) ≥ aspect
  · rw [if_pos hcase]
    have hwh : (w : ℚ) * (MAX_HEIGHT : ℚ) ≤ (MAX_WIDTH : ℚ) * (h : ℚ) := by
      rw [ge_iff_le, haspect, div_le_div_iff hh' hbh] at hcase
      linarith
    have hsf : scaleFactor w h = (h : ℚ) / (MAX_HEIGHT : ℚ) := by
      unfold scaleFactor
      apply max_eq_right
      rw [div_le_div_iff hbw hbh]
      linarith
    have hhr : (h : ℚ) / scaleFactor w h = (MAX_HEIGHT : ℚ) := by
      rw [hsf]
      field_simp
    have hwr : (w : ℚ) / scaleFactor w h = (MAX_HEIGHT : ℚ) * aspect := by
      rw [hsf, haspect]
      field_simp
      ring
    have hnum_le : (MAX_HEIGHT : ℚ) * aspect ≤ (MAX_WIDTH : ℚ) := by
      rw [haspect, mul_div_assoc']
      rw [div_le_iff hh']
      linarith
    dsimp only
    refine ⟨?_, ?_, ?_, ?_⟩
    · apply round_aspect_le
      · norm_num [MAX_WIDTH]
      · exact hnum_le
    · exact le_refl _
    · rw [hwr]
      apply round_aspect_near
      exact mul_nonneg hbh.le haq.le
    · rw [hhr]
      push_cast
      simp
  · rw [if_neg hcase]
    have hlt : (MAX_WIDTH : ℚ) / (MAX_HEIGHT : ℚ) < aspect := lt_of_not_ge hcase
    have hwh : (MAX_WIDTH : ℚ) * (h : ℚ) < (w : ℚ) * (MAX_HEIGHT : ℚ) := by
      rw [haspect, div_lt_div_iff hbh hh'] at hlt
      linarith
    have hsf : scaleFactor w h = (w : ℚ) / (MAX_WIDTH : ℚ) := by
      unfold scaleFactor
      apply max_eq_left
      rw [div_le_div_iff hbh hbw]
      linarith
    have hwr : (w : ℚ) / scaleFactor w h = (MAX_WIDTH : ℚ) := by
      rw [hsf]
      field_simp
    have hhr : (h : ℚ) / scaleFactor w h = (MAX_WIDTH : ℚ) / aspect := by
      rw [hsf, haspect]
      field_simp
      ring
    have hnum_le : (MAX_WIDTH : ℚ) / aspect ≤ (MAX_HEIGHT : ℚ) := by
      rw [haspect, div_div_eq_mul_div]
      rw [div_le_iff hw']
      linarith
    dsimp only
    refine ⟨?_, ?_, ?_, ?_⟩
    · exact le_refl _
    · apply round_aspect_le
      · norm_num [MAX_HEIGHT]
      · exact hnum_le
    · rw [hwr]
      push_cast
      simp
    · rw [hhr]
      apply round_aspect_near
      exact div_nonneg hbw.le haq.le

/-- Witness for C6: a 4000×3000 source against the 1080×768 box. -/
theorem spec_c6_witness :
    (thumbnailSize 4000 3000 MAX_WIDTH MAX_HEIGHT).1 ≤ (MAX_WIDTH : ℤ) ∧
    (thumbnailSize 4000 3000 MAX_WIDTH MAX_HEIGHT).2 ≤ (MAX_HEIGHT : ℤ) ∧
    |((thumbnailSize 4000 3000 MAX_WIDTH MAX_HEIGHT).1 : ℚ) -
        ((4000 : ℕ) : ℚ) / scaleFactor 4000 3000| ≤ 1 ∧
    |((thumbnailSize 4000 3000 MAX_WIDTH MAX_HEIGHT).2 : ℚ) -
        ((3000 : ℕ) : ℚ) / scaleFactor 4000 3000| ≤ 1 :=
  spec_c6 4000 3000 (by decide) (by decide) (Or.inl (by decide))
